import Mathlib

/-!
Verification of the threadbound link-preview resolver (Go package
`urlprocessor`, plus `processAllURLs` in the markdown generator).

The Go source is embedded shallowly: pure string manipulation is translated
directly; the external world (filesystem, `curl`, `magick`, `plutil`, the
SQLite rows) is modelled by an explicit environment of oracles plus an
explicit list of existing files, and every external invocation is recorded
in an event trace so that ordering and "no external work" properties can be
stated.
-/

namespace Threadbound

/-! ### String utilities (models of Go `strings` functions, on rune lists) -/

/-- Model of Go `strings.HasPrefix` on rune lists: `pre` is a leading segment of the second list. -/
def leadsWith : List Char → List Char → Bool
  | [], _ => true
  | _ :: _, [] => false
  | p :: ps, c :: cs => p = c && leadsWith ps cs

/-- Model of Go `strings.Contains`: scans every suffix for a leading occurrence of `pat`. -/
def containsAux (pat : List Char) : List Char → Bool
  | [] => leadsWith pat []
  | c :: cs => leadsWith pat (c :: cs) || containsAux pat cs

/-- Model of Go `strings.Contains` on `String`. -/
def containsStr (hay pat : String) : Bool := containsAux pat.data hay.data

/-! ### URL extractor (`FindURLsInText`, part_012 lines 47-68)

The Go code matches the regular expression
`https?://[^\s<>"{}|\\^`\[\]]+` (see `New`, line 37), trims trailing
punctuation with `strings.TrimRight(match, ".,;!?)")`, and deduplicates
preserving first-seen order via a `map[string]bool` seen set. -/

/-- The character class excluded from a URL body by the source regex
`[^\s<>"{}|\\^`\[\]]` (Go RE2 `\s` is tab, newline, form feed, carriage
return, space). Note the set contains the backslash. -/
def isURLDelim (c : Char) : Bool :=
  c = ' ' || c = '\t' || c = '\n' || c = '\x0c' || c = '\r' ||
  c = '<' || c = '>' || c = '\x22' || c = '\x7b' || c = '\x7d' ||
  c = '|' || c = '\\' || c = '^' || c = '\x60' || c = '[' || c = ']'

/-- Matches the greedy one-or-more URL body `[^delim]+` after a scheme `pre`,
returning the full match and the unconsumed remainder. -/
def matchTail (delim : Char → Bool) (pre rest : List Char) :
    Option (List Char × List Char) :=
  let body := rest.takeWhile (fun c => !delim c)
  if body.isEmpty then none
  else some (pre ++ body, rest.dropWhile (fun c => !delim c))

/-- Attempts to match `https?://[^delim]+` anchored at the head of the list. -/
def matchURLAt (delim : Char → Bool) : List Char → Option (List Char × List Char)
  | 'h' :: 't' :: 't' :: 'p' :: 's' :: ':' :: '/' :: '/' :: rest =>
    matchTail delim ['h', 't', 't', 'p', 's', ':', '/', '/'] rest
  | 'h' :: 't' :: 't' :: 'p' :: ':' :: '/' :: '/' :: rest =>
    matchTail delim ['h', 't', 't', 'p', ':', '/', '/'] rest
  | _ => none

/-- Model of Go `regexp.FindAllString(text, -1)`: scans left to right; after a
match it resumes right after the match, otherwise it advances one rune. The
fuel argument (instantiated with the text length, which bounds the number of
scanning steps) makes the recursion structural. -/
def scanAux (delim : Char → Bool) : Nat → List Char → List (List Char)
  | 0, _ => []
  | _ + 1, [] => []
  | fuel + 1, c :: cs =>
    match matchURLAt delim (c :: cs) with
    | some (m, rest) => m :: scanAux delim fuel rest
    | none => scanAux delim fuel cs

/-- All raw regex matches of the URL pattern in `text`, for a given delimiter class. -/
def rawMatchesWith (delim : Char → Bool) (text : String) : List String :=
  (scanAux delim text.data.length text.data).map (fun l => ⟨l⟩)

/-- The trailing-punctuation cutset of `strings.TrimRight(match, ".,;!?)")`. -/
def isTrimChar (c : Char) : Bool :=
  c = '.' || c = ',' || c = ';' || c = '!' || c = '?' || c = ')'

/-- Model of Go `strings.TrimRight(s, ".,;!?)")`. -/
def trimRightPunct (s : String) : String :=
  ⟨(s.data.reverse.dropWhile isTrimChar).reverse⟩

/-- The dedup loop of `FindURLsInText`: a seen set plus append of unseen entries. -/
def dedupAux : List String → List String → List String
  | _, [] => []
  | seen, x :: xs => if x ∈ seen then dedupAux seen xs else x :: dedupAux (x :: seen) xs

/-- Embedding of `FindURLsInText` (part_012 lines 47-68). -/
def FindURLsInText (text : String) : List String :=
  if text = "" then []
  else dedupAux [] ((rawMatchesWith isURLDelim text).map trimRightPunct)

/-! ### Spec-side extractor definitions (for the refinement claim C7)

These definitions follow the wording of the claim, to be compared with the
source-derived `FindURLsInText`. -/

/-- The delimiter set exactly as the claim lists it: whitespace, angle, curly
and square brackets, quotes, backtick, pipe, caret — with no backslash. -/
def specListedDelim (c : Char) : Bool :=
  c = ' ' || c = '\t' || c = '\n' || c = '\x0c' || c = '\r' ||
  c = '<' || c = '>' || c = '\x7b' || c = '\x7d' || c = '[' || c = ']' ||
  c = '\x22' || c = '\x60' || c = '|' || c = '^'

/-- The claim's delimiter set amended to also include the backslash. -/
def specAmendedDelim (c : Char) : Bool := specListedDelim c || c = '\\'

/-- Spec-side trim: while the last character is one of `. , ; ! ? )`, drop it. -/
def specTrimAux : Nat → List Char → List Char
  | 0, l => l
  | fuel + 1, l =>
    match l.getLast? with
    | none => l
    | some c => if isTrimChar c then specTrimAux fuel l.dropLast else l

/-- Spec-side trim on strings. -/
def specTrim (s : String) : String := ⟨specTrimAux s.data.length s.data⟩

/-- Spec-side dedup: keep each string the first time it is seen. -/
def specDedup (l : List String) : List String :=
  l.foldl (fun acc x => if x ∈ acc then acc else acc ++ [x]) []

/-- The extractor as the claim words it (with the claim's listed delimiter set). -/
def specFindURLsListed (text : String) : List String :=
  if text = "" then [] else specDedup ((rawMatchesWith specListedDelim text).map specTrim)

/-- The extractor as the claim words it, with the delimiter set amended to
include the backslash. -/
def specFindURLsAmended (text : String) : List String :=
  if text = "" then [] else specDedup ((rawMatchesWith specAmendedDelim text).map specTrim)

/-! ### Lemmas about the extractor -/

theorem dedupAux_sublist (seen l : List String) : List.Sublist (dedupAux seen l) l := by
  induction l generalizing seen with
  | nil => simp [dedupAux]
  | cons x xs ih =>
    simp only [dedupAux]
    split
    · exact (ih seen).cons x
    · exact (ih (x :: seen)).cons₂ x

theorem mem_dedupAux {u : String} {seen l : List String} :
    u ∈ dedupAux seen l ↔ u ∈ l ∧ u ∉ seen := by
  induction l generalizing seen with
  | nil => simp [dedupAux]
  | cons x xs ih =>
    simp only [dedupAux]
    split
    · rename_i hx
      rw [ih]
      constructor
      · rintro ⟨h1, h2⟩; exact ⟨List.mem_cons_of_mem _ h1, h2⟩
      · rintro ⟨h1, h2⟩
        rcases List.mem_cons.1 h1 with rfl | h1
        · exact absurd hx h2
        · exact ⟨h1, h2⟩
    · rename_i hx
      constructor
      · intro h
        rcases List.mem_cons.1 h with rfl | h
        · exact ⟨List.mem_cons_self _ _, hx⟩
        · obtain ⟨h1, h2⟩ := ih.1 h
          exact ⟨List.mem_cons_of_mem _ h1, fun hs => h2 (List.mem_cons_of_mem _ hs)⟩
      · rintro ⟨h1, h2⟩
        rcases List.mem_cons.1 h1 with rfl | h1
        · exact List.mem_cons_self _ _
        · by_cases hux : u = x
          · rw [hux]; exact List.mem_cons_self _ _
          · exact List.mem_cons_of_mem _
              (ih.2 ⟨h1, fun hs => (List.mem_cons.1 hs).elim hux h2⟩)

theorem dedupAux_nodup (seen l : List String) : (dedupAux seen l).Nodup := by
  induction l generalizing seen with
  | nil => simp [dedupAux]
  | cons x xs ih =>
    simp only [dedupAux]
    split
    · exact ih seen
    · refine List.Nodup.cons (fun h => ?_) (ih (x :: seen))
      exact (mem_dedupAux.1 h).2 (List.mem_cons_self _ _)

theorem dedupAux_congr {s1 s2 : List String} (h : ∀ a, a ∈ s1 ↔ a ∈ s2) :
    ∀ l, dedupAux s1 l = dedupAux s2 l := by
  intro l
  induction l generalizing s1 s2 with
  | nil => simp [dedupAux]
  | cons x xs ih =>
    simp only [dedupAux]
    by_cases hx : x ∈ s1
    · rw [if_pos hx, if_pos ((h x).1 hx)]
      exact ih h
    · rw [if_neg hx, if_neg (fun hc => hx ((h x).2 hc))]
      refine congrArg (x :: ·) (ih ?_)
      intro a
      simp only [List.mem_cons]
      exact or_congr Iff.rfl (h a)

theorem dedupAux_eq_foldl (acc l : List String) :
    acc ++ dedupAux acc l =
      l.foldl (fun acc x => if x ∈ acc then acc else acc ++ [x]) acc := by
  induction l generalizing acc with
  | nil => simp [dedupAux]
  | cons x xs ih =>
    simp only [dedupAux, List.foldl_cons]
    by_cases hx : x ∈ acc
    · rw [if_pos hx, if_pos hx]
      exact ih acc
    · rw [if_neg hx, if_neg hx, ← ih (acc ++ [x])]
      rw [@dedupAux_congr (x :: acc) (acc ++ [x]) (by intro a; simp [or_comm]) xs]
      simp

theorem specDedup_eq_dedupAux (l : List String) : specDedup l = dedupAux [] l := by
  have h := dedupAux_eq_foldl [] l
  simpa [specDedup] using h.symm

theorem specTrimAux_eq (l : List Char) :
    ∀ fuel, l.length ≤ fuel → specTrimAux fuel l = (l.reverse.dropWhile isTrimChar).reverse := by
  induction l using List.reverseRecOn with
  | nil => intro fuel _; cases fuel <;> simp [specTrimAux]
  | append_singleton l' c ih =>
    intro fuel hfuel
    cases fuel with
    | zero => simp at hfuel
    | succ fuel =>
      simp only [specTrimAux, List.getLast?_concat, List.dropLast_concat]
      by_cases hc : isTrimChar c = true
      · rw [if_pos hc, ih fuel (by simp at hfuel; omega)]
        simp [List.dropWhile_cons, hc]
      · rw [if_neg hc]
        simp [List.dropWhile_cons, hc]

theorem specTrim_eq_trimRightPunct : specTrim = trimRightPunct := by
  funext s
  show String.mk (specTrimAux s.data.length s.data) = _
  rw [specTrimAux_eq s.data s.data.length (Nat.le_refl _)]
  rfl

theorem isURLDelim_eq_specAmendedDelim : isURLDelim = specAmendedDelim := by
  funext c
  simp only [isURLDelim, specAmendedDelim, specListedDelim]
  rw [Bool.eq_iff_iff]
  simp only [Bool.or_eq_true, decide_eq_true_eq]
  tauto

/-! ### Data model (part_012 and src/internal/output/plugin.go) -/

/-- Embedding of `output.URLThumbnail` (src/internal/output/plugin.go lines
55-63); Go zero values are the field defaults. -/
structure URLThumbnail where
  url : String := ""
  title : String := ""
  description : String := ""
  thumbnailPath : String := ""
  imagePath : String := ""
  success : Bool := false
  error : String := ""
  deriving Repr, DecidableEq, Inhabited

/-- Embedding of `RichLinkMetadata` (part_012 lines 142-153). `imageIndex` is a
`Nat` because the parser stores a captured index only after checking it is
non-negative (line 217), and the Go zero value is 0. -/
structure RichLinkMetadata where
  title : String := ""
  summary : String := ""
  siteName : String := ""
  imageIndex : Nat := 0
  iconIndex : Nat := 0
  hasImage : Bool := false
  hasIcon : Bool := false
  imageURL : String := ""
  iconURL : String := ""
  deriving Repr, DecidableEq, Inhabited

/-- Embedding of `MessageAttachment` (part_012 lines 155-162); the unused
`Data []byte` field is omitted. -/
structure MessageAttachment where
  id : Int := 0
  guid : String := ""
  mimeType : String := ""
  filename : String := ""
  deriving Repr, DecidableEq, Inhabited

/-- Embedding of `WebMetadata` (part_012 lines 534-540). -/
structure WebMetadata where
  title : String := ""
  description : String := ""
  imageURL : String := ""
  faviconURL : String := ""
  deriving Repr, DecidableEq, Inhabited

/-- One recorded external interaction of the pipeline: a cache stat, a strategy
attempt (attachment convert, image download via `curl`, live page fetch,
domain-card render via `magick`), or a metadata-parse invocation of `plutil`
carrying the original URL it was given. -/
inductive Event where
  | statCache : String → Event
  | copyAttachment : String → Event
  | downloadImage : String → Event
  | liveFetch : String → Event
  | genCard : String → Event
  | parsePayload : String → Event
  deriving Repr, DecidableEq

/-- Download/convert/render external work, as opposed to a pure cache stat or
the metadata parse. -/
def Event.isWork : Event → Bool
  | statCache _ => false
  | parsePayload _ => false
  | _ => true

/-- Recognizes the live page fetch strategy in a trace. -/
def Event.isLiveFetch : Event → Bool
  | liveFetch _ => true
  | _ => false

/-- Oracle model of the external world. File existence is threaded separately
as an explicit list of paths; each field models the outcome of one kind of
external invocation (`magick` conversion, `curl` download, `magick` card
rendering, temp-file write, `plutil` conversion with its text output, the
two-hop UID field lookups on that text, and the live-fetch helpers). -/
structure Env where
  convertOk : String → String → Bool
  curlImageOk : String → Bool
  cardGenOk : String → String → Bool
  tmpWriteOk : String → Bool
  plutilOut : String → Option String
  plistTitle : String → String
  plistSummary : String → String
  plistSiteName : String → String
  webMeta : String → WebMetadata
  ogDownloadOk : String → Bool
  faviconCardOk : String → Bool

/-! ### Path and parsing helpers -/

/-- Model of the `crypto/md5` hex digest used as the cache key: a fixed
deterministic encoding of the URL. Every verified property depends only on
the cache key being a pure function of the URL. -/
def md5hex (s : String) : String :=
  String.join (s.data.map (fun c => (Nat.toDigits 16 c.toNat).asString))

/-- Model of `filepath.Join` for the already-clean paths used here. -/
def joinPath (a b : String) : String := ⟨a.data ++ '/' :: b.data⟩

/-- The cache path `filepath.Join(cacheDir, md5(url)+".png")` shared by
`ProcessURL`, `createThumbnailFromMetadata` and `copyAttachmentAsImage`. -/
def cachePath (cacheDir url : String) : String := joinPath cacheDir (md5hex url ++ ".png")

/-- Character ending the host component of an http(s) URL. -/
def isHostEnd (c : Char) : Bool := c = '/' || c = '?' || c = '#'

/-- Model of Go `net/url.Parse(urlStr).Host` for the scheme-qualified http(s)
URLs this pipeline handles (outputs of `FindURLsInText` and stored metadata
URLs): the substring between `scheme://` and the first `/`, `?` or `#`.
Strings without an http(s) scheme are mapped to `none`, modelling the
parse-failure branch. -/
def parseHost (urlStr : String) : Option String :=
  if leadsWith "http://".data urlStr.data then
    some ⟨(urlStr.data.drop 7).takeWhile (fun c => !isHostEnd c)⟩
  else if leadsWith "https://".data urlStr.data then
    some ⟨(urlStr.data.drop 8).takeWhile (fun c => !isHostEnd c)⟩
  else none

/-- The `strings.HasPrefix(domain, "www.")` strip shared by
`generateDomainCard` and `extractDomainTitle`. -/
def stripWWW (domain : String) : String :=
  if leadsWith "www.".data domain.data then ⟨domain.data.drop 4⟩ else domain

/-- Model of `strings.ToUpper(domain[:1]) + domain[1:]` (first byte uppercased,
ASCII-faithful), guarded by `len(domain) > 0` in the source. -/
def capitalizeFirst (domain : String) : String :=
  match domain.data with
  | [] => domain
  | c :: rest => ⟨c.toUpper :: rest⟩

/-- Embedding of `extractDomainTitle` (part_012 lines 919-937). -/
def extractDomainTitle (urlStr : String) : String :=
  match parseHost urlStr with
  | none => "Web Link"
  | some host => capitalizeFirst (stripWWW host)

/-- Model of Go `filepath.Base` for the slash-separated file paths used here:
the last `/`-separated component. -/
def baseName (s : String) : String :=
  ⟨(s.data.reverse.takeWhile (fun c => c ≠ '/')).reverse⟩

/-- Value of a run of decimal digit characters (Go `fmt.Sscanf("%d")` on the
captured digit run). -/
def digitsVal (ds : List Char) : Nat := ds.foldl (fun n c => n * 10 + (c.toNat - 48)) 0

/-- Model of the regex search `key(\d+)`: the leftmost occurrence of the
literal `key` immediately followed by at least one digit, capturing the digit
run. Used for `"richLinkImageAttachmentSubstituteIndex" => (\d+)` (part_012
line 216). -/
def scanKeyDigits (key : List Char) : List Char → Option Nat
  | [] => none
  | c :: cs =>
    if leadsWith key (c :: cs) = true then
      let ds := (List.drop key.length (c :: cs)).takeWhile Char.isDigit
      if ds.isEmpty then scanKeyDigits key cs else some (digitsVal ds)
    else scanKeyDigits key cs

/-- Scanner for the regex `"(https://[^"]+)"` of `extractAllURLs` (part_012
lines 425-436): a quoted absolute https URL with a non-empty body and a
closing quote; scanning resumes after the closing quote of a match and
advances one rune otherwise. Fuel is instantiated with the text length. -/
def extractAllURLsAux : Nat → List Char → List String
  | 0, _ => []
  | _ + 1, [] => []
  | fuel + 1, c :: cs =>
    if c = '\x22' ∧ leadsWith "https://".data cs = true then
      let after := cs.drop 8
      let body := after.takeWhile (fun ch => ch ≠ '\x22')
      let rest := after.drop body.length
      if body.isEmpty ∨ rest.headD ' ' ≠ '\x22' then extractAllURLsAux fuel cs
      else (⟨"https://".data ++ body⟩ : String) :: extractAllURLsAux fuel (rest.drop 1)
    else extractAllURLsAux fuel cs

/-- Embedding of `extractAllURLs` (part_012 lines 425-436). -/
def extractAllURLs (text : String) : List String :=
  extractAllURLsAux text.data.length text.data

/-- Embedding of `isPreviewImageURL` (part_012 lines 438-465). -/
def isPreviewImageURL (url : String) : Bool :=
  if containsStr url "cdn-link-previews" then true
  else if containsStr url "ytimg.com" && !containsStr url "favicon" then true
  else if containsStr url ".jpg" || containsStr url ".jpeg" || containsStr url ".png" ||
      containsStr url ".webp" || containsStr url ".gif" then
    if containsStr url "favicon" || containsStr url "icon" then false
    else if containsStr url "32x32" || containsStr url "16x16" || containsStr url "64x64" then
      false
    else true
  else false

/-- Embedding of `isIconURL` (part_012 lines 467-474). -/
def isIconURL (url : String) : Bool :=
  containsStr url "favicon" || containsStr url "icon" ||
    containsStr url "32x32" || containsStr url "16x16" || containsStr url "64x64"

/-- The categorization loop of `extractRichLinkMetadata` (part_012 lines
227-236): previews first, else icons, preserving order. -/
def categorizeURLs : List String → List String × List String
  | [] => ([], [])
  | u :: rest =>
    let pi := categorizeURLs rest
    if isPreviewImageURL u then (u :: pi.1, pi.2)
    else if isIconURL u then (pi.1, u :: pi.2)
    else pi

/-- Embedding of `reconstructAppleMusicArtwork` (part_012 lines 487-500): the
source deliberately returns the empty string. -/
def reconstructAppleMusicArtwork (_plistOutput _originalURL : String) : String := ""

/-- Embedding of `reconstructPreviewURL` (part_012 lines 476-485). -/
def reconstructPreviewURL (plistOutput originalURL : String) : String :=
  if containsStr originalURL "music.apple.com" || containsStr originalURL "itunes.apple.com" then
    reconstructAppleMusicArtwork plistOutput originalURL
  else ""

/-- The literal prefix of the regex
`"richLinkImageAttachmentSubstituteIndex" => (\d+)` (part_012 line 216). -/
def substituteIndexKey : String := "\x22richLinkImageAttachmentSubstituteIndex\x22 => "

/-- Embedding of `extractRichLinkMetadata` (part_012 lines 164-260). The
temp-file write and the `plutil` conversion are environment oracles; the
title/summary/siteName two-hop UID lookups are field oracles on the converted
text (no verified claim depends on those string values); the attachment-index
capture, the URL collection and the preview/icon classification are
implemented from the source. -/
def extractRichLinkMetadata (env : Env) (payloadData : String) (originalURL : String) :
    Except String RichLinkMetadata :=
  if !env.tmpWriteOk payloadData then .error "temp file write failed"
  else
    match env.plutilOut payloadData with
    | none => .error "plutil conversion failed"
    | some outputStr =>
      let md : RichLinkMetadata :=
        { title := env.plistTitle outputStr
          summary := env.plistSummary outputStr
          siteName := env.plistSiteName outputStr }
      let md :=
        match scanKeyDigits substituteIndexKey.data outputStr.data with
        | some idx => { md with imageIndex := idx, hasImage := true }
        | none => md
      let pi := categorizeURLs (extractAllURLs outputStr)
      let md :=
        if !pi.1.isEmpty then { md with imageURL := pi.1.headD "", hasImage := true }
        else
          let r := reconstructPreviewURL outputStr originalURL
          if r ≠ "" then { md with imageURL := r, hasImage := true } else md
      let md :=
        if !pi.2.isEmpty then { md with iconURL := pi.2.headD "", hasIcon := true } else md
      .ok md

/-! ### Strategy steps and the resolution pipeline -/

/-- The outcome of one strategy attempt: the boolean the Go helper returns, the
(possibly mutated) thumbnail, the filesystem after the attempt, and the trace
of external interactions. -/
structure StepOut where
  ok : Bool
  result : URLThumbnail
  fs : List String
  events : List Event
  deriving Repr

/-- The outcome of a whole resolution: the returned thumbnail (the Go functions
never return nil), the filesystem after the call, and the trace. -/
structure ResolveOut where
  thumb : URLThumbnail
  fs : List String
  events : List Event
  deriving Repr

/-- The candidate attachment locations of `copyAttachmentAsImage` (part_012
lines 347-350). -/
def possiblePaths (attachmentsPath : String) (att : MessageAttachment) : List String :=
  [joinPath (joinPath attachmentsPath "Attachments") att.guid, joinPath attachmentsPath att.guid]

/-- The loop of `copyAttachmentAsImage` (part_012 lines 352-361): the first
candidate path that exists and converts successfully wins; a path that exists
but fails to convert falls through to the next candidate. -/
def copyAttachmentTry (env : Env) (fs : List String) (thumbnailPath : String) :
    List String → Bool
  | [] => false
  | p :: rest =>
    if p ∈ fs ∧ env.convertOk p thumbnailPath = true then true
    else copyAttachmentTry env fs thumbnailPath rest

/-- Embedding of `copyAttachmentAsImage` (part_012 lines 340-364). -/
def copyAttachmentAsImage (env : Env) (fs : List String) (cacheDir attachmentsPath : String)
    (att : MessageAttachment) (url : String) (result : URLThumbnail) : StepOut :=
  let thumbnailPath := cachePath cacheDir url
  if copyAttachmentTry env fs thumbnailPath (possiblePaths attachmentsPath att) then
    ⟨true, { result with thumbnailPath := thumbnailPath, success := true },
      thumbnailPath :: fs, [Event.copyAttachment att.guid]⟩
  else ⟨false, result, fs, [Event.copyAttachment att.guid]⟩

/-- Embedding of `downloadImageFromURL` (part_012 lines 373-404): `curl` to a
temp file (download failure and an empty/missing file are folded into
`curlImageOk`), then `copyAndConvertImage` from the temp path to the target. -/
def downloadImageFromURL (env : Env) (fs : List String) (imageURL targetPath : String)
    (result : URLThumbnail) : StepOut :=
  let tmpFile := joinPath "/tmp" ("url_image_" ++ md5hex imageURL)
  if env.curlImageOk imageURL = true ∧ env.convertOk tmpFile targetPath = true then
    ⟨true, { result with thumbnailPath := targetPath, success := true },
      targetPath :: fs, [Event.downloadImage imageURL]⟩
  else ⟨false, result, fs, [Event.downloadImage imageURL]⟩

/-- Embedding of `generateDomainCard` (part_012 lines 878-917). Note that the
thumbnail title is set to the uncapitalized www-stripped domain before the
card is rendered, whether or not rendering succeeds. -/
def generateDomainCard (env : Env) (fs : List String) (urlStr outputPath : String)
    (result : URLThumbnail) : StepOut :=
  match parseHost urlStr with
  | none => ⟨false, result, fs, [Event.genCard urlStr]⟩
  | some host =>
    let domain := stripWWW host
    let result := { result with title := domain, description := "Web link" }
    if env.cardGenOk urlStr outputPath = true then
      ⟨true, result, outputPath :: fs, [Event.genCard urlStr]⟩
    else ⟨false, result, fs, [Event.genCard urlStr]⟩

/-- Embedding of `fetchOpenGraphThumbnail` (part_012 lines 502-532), the live
page fetch strategy: extract web metadata (oracle `webMeta` modelling
`extractWebMetadata`, including favicon defaulting), try the Open Graph image
download, then the favicon card. This function is defined in the source but is
never called by `ProcessURL`, `createThumbnailFromMetadata`, or any other
function of the repository. -/
def fetchOpenGraphThumbnail (env : Env) (fs : List String) (urlStr outputPath : String)
    (result : URLThumbnail) : StepOut :=
  let metadata := env.webMeta urlStr
  let title := if metadata.title ≠ "" then metadata.title else extractDomainTitle urlStr
  let result := { result with title := title, description := metadata.description }
  if metadata.imageURL ≠ "" ∧ env.ogDownloadOk metadata.imageURL = true then
    ⟨true, result, outputPath :: fs, [Event.liveFetch urlStr]⟩
  else if metadata.faviconURL ≠ "" ∧ env.faviconCardOk metadata.faviconURL = true then
    ⟨true, result, outputPath :: fs, [Event.liveFetch urlStr]⟩
  else ⟨false, result, fs, [Event.liveFetch urlStr]⟩

/-- Embedding of `ProcessURL` (part_012 lines 112-140): cache stat, then the
generated domain card; nothing else. -/
def ProcessURL (env : Env) (fs : List String) (cacheDir urlStr : String) : ResolveOut :=
  let result : URLThumbnail := { url := urlStr, success := false }
  let thumbnailPath := cachePath cacheDir urlStr
  if thumbnailPath ∈ fs then
    let hit : URLThumbnail :=
      { result with
        thumbnailPath := thumbnailPath
        success := true
        title := extractDomainTitle urlStr }
    ⟨hit, fs, [Event.statCache thumbnailPath]⟩
  else
    let s := generateDomainCard env fs urlStr thumbnailPath result
    let r := { s.result with success := s.ok }
    let r := if s.ok then { r with thumbnailPath := thumbnailPath } else r
    ⟨r, s.fs, Event.statCache thumbnailPath :: s.events⟩

/-- The final fallback of `createThumbnailFromMetadata` (part_012 lines
331-337): the generated domain card. -/
def ctmFallback (env : Env) (fs : List String) (url thumbnailPath : String)
    (result : URLThumbnail) (trace : List Event) : ResolveOut :=
  let s := generateDomainCard env fs url thumbnailPath result
  if s.ok then
    ⟨{ s.result with thumbnailPath := thumbnailPath, success := true }, s.fs,
      trace ++ s.events⟩
  else ⟨s.result, s.fs, trace ++ s.events⟩

/-- Try 3 of `createThumbnailFromMetadata` (part_012 lines 324-329): the icon
download, then the fallback. -/
def ctmAfterImage (env : Env) (fs : List String) (url : String)
    (metadata : RichLinkMetadata) (thumbnailPath : String) (result : URLThumbnail)
    (trace : List Event) : ResolveOut :=
  if metadata.hasIcon = true ∧ metadata.iconURL ≠ "" then
    let s := downloadImageFromURL env fs metadata.iconURL thumbnailPath result
    if s.ok then ⟨s.result, s.fs, trace ++ s.events⟩
    else ctmFallback env s.fs url thumbnailPath s.result (trace ++ s.events)
  else ctmFallback env fs url thumbnailPath result trace

/-- Try 2 of `createThumbnailFromMetadata` (part_012 lines 317-322): the
metadata image download, then try 3. -/
def ctmAfterAttachment (env : Env) (fs : List String) (url : String)
    (metadata : RichLinkMetadata) (thumbnailPath : String) (result : URLThumbnail)
    (trace : List Event) : ResolveOut :=
  if metadata.hasImage = true ∧ metadata.imageURL ≠ "" then
    let s := downloadImageFromURL env fs metadata.imageURL thumbnailPath result
    if s.ok then ⟨s.result, s.fs, trace ++ s.events⟩
    else ctmAfterImage env s.fs url metadata thumbnailPath s.result (trace ++ s.events)
  else ctmAfterImage env fs url metadata thumbnailPath result trace

/-- Embedding of `createThumbnailFromMetadata` (part_012 lines 296-338): the
ordered fallback chain — attachment copy (when the metadata index is in
range), metadata image download, icon download, generated domain card. There
is no cache check in this function. -/
def createThumbnailFromMetadata (env : Env) (fs : List String)
    (cacheDir attachmentsPath url : String) (metadata : RichLinkMetadata)
    (attachments : List MessageAttachment) : ResolveOut :=
  let result : URLThumbnail :=
    { url := url, title := metadata.title, description := metadata.summary, success := false }
  let thumbnailPath := cachePath cacheDir url
  if metadata.hasImage = true ∧ metadata.imageIndex < attachments.length then
    let s := copyAttachmentAsImage env fs cacheDir attachmentsPath
      (attachments.getD metadata.imageIndex default) url result
    if s.ok then ⟨s.result, s.fs, s.events⟩
    else ctmAfterAttachment env s.fs url metadata thumbnailPath s.result s.events
  else ctmAfterAttachment env fs url metadata thumbnailPath result []

/-! ### Per-message processing and the generator loop -/

/-- The outcome of `ProcessMessageForURLPreviews`: the result map (at most one
entry, modelled as an association list), the filesystem, and the trace. -/
structure PreviewOut where
  results : List (String × URLThumbnail)
  fs : List String
  events : List Event
  deriving Repr

/-- Embedding of `ProcessMessageForURLPreviews` (part_012 lines 70-110). The
database row read is the oracle `db` (`none` models a query/scan error; an
empty payload models both NULL and empty `payload_data`), and
`getMessageAttachments` is the oracle `getAtts` (`none` models a query
error). -/
def ProcessMessageForURLPreviews (env : Env) (fs : List String)
    (db : Int → Option (String × String)) (getAtts : Int → Option (List MessageAttachment))
    (cacheDir attachmentsPath : String) (messageID : Int) : PreviewOut :=
  match db messageID with
  | none => ⟨[], fs, []⟩
  | some (messageText, payloadData) =>
    if payloadData = "" then ⟨[], fs, []⟩
    else
      let urls := FindURLsInText messageText
      if urls.isEmpty then ⟨[], fs, []⟩
      else
        let u0 := urls.headD ""
        match extractRichLinkMetadata env payloadData u0 with
        | .error _ => ⟨[], fs, [Event.parsePayload u0]⟩
        | .ok metadata =>
          match getAtts messageID with
          | none => ⟨[], fs, [Event.parsePayload u0]⟩
          | some attachments =>
            let r := createThumbnailFromMetadata env fs cacheDir attachmentsPath u0
              metadata attachments
            ⟨[(u0, r.thumb)], r.fs, Event.parsePayload u0 :: r.events⟩

/-- A message row as the generator sees it (src/internal/models; only the
fields `processAllURLs` reads). -/
structure Message where
  id : Int := 0
  text : Option String := none
  deriving Repr, DecidableEq, Inhabited

/-- The mutable state of `processAllURLs` (generator.go lines 113-158): the
`urlThumbnails` map and the `processedURLs` set (both modelled as lists in
insertion order), plus the threaded filesystem and trace. -/
structure RunState where
  thumbs : List (String × URLThumbnail)
  processed : List String
  fs : List String
  events : List Event
  deriving Repr

/-- The first inner loop of `processAllURLs` (generator.go lines 126-137):
adopt each preview entry not yet processed. -/
def addPreviews (st : RunState) : List (String × URLThumbnail) → RunState
  | [] => st
  | (u, t) :: rest =>
    if u ∈ st.processed then addPreviews st rest
    else
      addPreviews
        { st with thumbs := st.thumbs ++ [(u, t)], processed := st.processed ++ [u] } rest

/-- The second inner loop of `processAllURLs` (generator.go lines 140-151):
resolve every remaining URL with the fallback `ProcessURL`. -/
def fallbackLoop (env : Env) (cacheDir : String) (st : RunState) : List String → RunState
  | [] => st
  | u :: rest =>
    if u ∈ st.processed then fallbackLoop env cacheDir st rest
    else
      let r := ProcessURL env st.fs cacheDir u
      fallbackLoop env cacheDir
        { thumbs := st.thumbs ++ [(u, r.thumb)], processed := st.processed ++ [u],
          fs := r.fs, events := st.events ++ r.events } rest

/-- The per-message body of `processAllURLs` (generator.go lines 121-153). -/
def processMessage (env : Env) (db : Int → Option (String × String))
    (getAtts : Int → Option (List MessageAttachment)) (cacheDir attachmentsPath : String)
    (st : RunState) (msg : Message) : RunState :=
  match msg.text with
  | none => st
  | some t =>
    let urls := FindURLsInText t
    if urls.isEmpty then st
    else
      let pr := ProcessMessageForURLPreviews env st.fs db getAtts cacheDir attachmentsPath msg.id
      let st1 : RunState := { st with fs := pr.fs, events := st.events ++ pr.events }
      fallbackLoop env cacheDir (addPreviews st1 pr.results) urls

/-- Embedding of `processAllURLs` (src/src/internal/markdown/generator.go lines
113-158). -/
def processAllURLs (env : Env) (db : Int → Option (String × String))
    (getAtts : Int → Option (List MessageAttachment)) (cacheDir attachmentsPath : String)
    (fs0 : List String) (messages : List Message) : RunState :=
  messages.foldl (processMessage env db getAtts cacheDir attachmentsPath)
    ⟨[], [], fs0, []⟩

/-! ### Text substitution -/

/-- Model of Go `strings.ReplaceAll` (all non-overlapping occurrences, left to
right) for the non-empty patterns used here, with fuel instantiated with the
text length, which bounds the number of scanning steps. -/
def replaceAllAux (pat rep : List Char) : Nat → List Char → List Char
  | 0, cs => cs
  | _ + 1, [] => []
  | fuel + 1, c :: cs =>
    if leadsWith pat (c :: cs) = true ∧ pat ≠ [] then
      rep ++ replaceAllAux pat rep fuel (List.drop pat.length (c :: cs))
    else c :: replaceAllAux pat rep fuel cs

/-- Model of Go `strings.ReplaceAll(s, pat, rep)` on `String`. -/
def replaceAll (s pat rep : String) : String :=
  ⟨replaceAllAux pat.data rep.data s.data.length s.data⟩

/-- The loop body of `ReplaceURLsWithImages` (part_012 lines 948-957): when
the URL has a successful thumbnail entry, every occurrence of the URL in the
working text is replaced by the LaTeX image reference to the thumbnail's
cached file. -/
def replaceStep (thumbnails : String → Option URLThumbnail) (result urlStr : String) : String :=
  match thumbnails urlStr with
  | some thumbnail =>
    if thumbnail.success = true then
      let relPath := "Attachments/url-thumbnails/" ++ baseName thumbnail.thumbnailPath
      replaceAll result urlStr ("\\messageimage\x7b" ++ relPath ++ "\x7d")
    else result
  | none => result

/-- Embedding of `ReplaceURLsWithImages` (part_012 lines 939-960). The
thumbnail map is modelled by its lookup function. -/
def ReplaceURLsWithImages (text : String) (thumbnails : String → Option URLThumbnail) :
    String :=
  if text = "" then text
  else (FindURLsInText text).foldl (replaceStep thumbnails) text

/-! ### Structural lemmas about the strategy steps -/

theorem cachePath_ne_empty (cacheDir url : String) : cachePath cacheDir url ≠ "" := by
  intro h
  have hd : (cachePath cacheDir url).data = [] := by rw [h]
  simp [cachePath, joinPath] at hd

theorem generateDomainCard_result (env : Env) (fs : List String) (urlStr outputPath : String)
    (r : URLThumbnail) :
    (generateDomainCard env fs urlStr outputPath r).result.thumbnailPath = r.thumbnailPath ∧
      (generateDomainCard env fs urlStr outputPath r).result.success = r.success := by
  unfold generateDomainCard
  rcases parseHost urlStr with _ | host
  · simp
  · simp only
    split <;> simp

theorem generateDomainCard_fs (env : Env) (fs : List String) (urlStr outputPath : String)
    (r : URLThumbnail) :
    (generateDomainCard env fs urlStr outputPath r).fs =
      if (generateDomainCard env fs urlStr outputPath r).ok = true then outputPath :: fs
      else fs := by
  unfold generateDomainCard
  rcases parseHost urlStr with _ | host
  · simp
  · simp only
    split <;> simp

theorem generateDomainCard_events (env : Env) (fs : List String) (urlStr outputPath : String)
    (r : URLThumbnail) :
    (generateDomainCard env fs urlStr outputPath r).events = [Event.genCard urlStr] := by
  unfold generateDomainCard
  rcases parseHost urlStr with _ | host
  · rfl
  · simp only
    split <;> rfl

theorem downloadImageFromURL_result (env : Env) (fs : List String) (imageURL targetPath : String)
    (r : URLThumbnail) :
    (downloadImageFromURL env fs imageURL targetPath r).result =
      if (downloadImageFromURL env fs imageURL targetPath r).ok = true then
        { r with thumbnailPath := targetPath, success := true }
      else r := by
  by_cases h : env.curlImageOk imageURL = true ∧
      env.convertOk (joinPath "/tmp" ("url_image_" ++ md5hex imageURL)) targetPath = true <;>
    simp [downloadImageFromURL, h]

theorem downloadImageFromURL_events (env : Env) (fs : List String) (imageURL targetPath : String)
    (r : URLThumbnail) :
    (downloadImageFromURL env fs imageURL targetPath r).events =
      [Event.downloadImage imageURL] := by
  by_cases h : env.curlImageOk imageURL = true ∧
      env.convertOk (joinPath "/tmp" ("url_image_" ++ md5hex imageURL)) targetPath = true <;>
    simp [downloadImageFromURL, h]

theorem copyAttachmentAsImage_ok (env : Env) (fs : List String)
    (cacheDir attachmentsPath : String) (att : MessageAttachment) (url : String)
    (r : URLThumbnail) :
    (copyAttachmentAsImage env fs cacheDir attachmentsPath att url r).ok =
      copyAttachmentTry env fs (cachePath cacheDir url) (possiblePaths attachmentsPath att) := by
  by_cases h : copyAttachmentTry env fs (cachePath cacheDir url)
      (possiblePaths attachmentsPath att) = true <;>
    simp [copyAttachmentAsImage, h]

theorem copyAttachmentAsImage_result (env : Env) (fs : List String)
    (cacheDir attachmentsPath : String) (att : MessageAttachment) (url : String)
    (r : URLThumbnail) :
    (copyAttachmentAsImage env fs cacheDir attachmentsPath att url r).result =
      if (copyAttachmentAsImage env fs cacheDir attachmentsPath att url r).ok = true then
        { r with thumbnailPath := cachePath cacheDir url, success := true }
      else r := by
  by_cases h : copyAttachmentTry env fs (cachePath cacheDir url)
      (possiblePaths attachmentsPath att) = true <;>
    simp [copyAttachmentAsImage, h]

theorem copyAttachmentAsImage_events (env : Env) (fs : List String)
    (cacheDir attachmentsPath : String) (att : MessageAttachment) (url : String)
    (r : URLThumbnail) :
    (copyAttachmentAsImage env fs cacheDir attachmentsPath att url r).events =
      [Event.copyAttachment att.guid] := by
  by_cases h : copyAttachmentTry env fs (cachePath cacheDir url)
      (possiblePaths attachmentsPath att) = true <;>
    simp [copyAttachmentAsImage, h]

/-- The success-iff-nonempty-path invariant of a thumbnail. -/
def pathInv (t : URLThumbnail) : Prop := t.success = true ↔ t.thumbnailPath ≠ ""

theorem ctmFallback_inv (env : Env) (fs : List String) (url tp : String) (r : URLThumbnail)
    (tr : List Event) (h : pathInv r) (htp : tp ≠ "") :
    pathInv (ctmFallback env fs url tp r tr).thumb := by
  obtain ⟨hpath, hsucc⟩ := generateDomainCard_result env fs url tp r
  simp only [ctmFallback]
  split
  · simp [pathInv, htp]
  · simpa [pathInv, hpath, hsucc] using h

theorem ctmAfterImage_inv (env : Env) (fs : List String) (url : String)
    (md : RichLinkMetadata) (tp : String) (r : URLThumbnail) (tr : List Event)
    (h : pathInv r) (htp : tp ≠ "") :
    pathInv (ctmAfterImage env fs url md tp r tr).thumb := by
  have hres := downloadImageFromURL_result env fs md.iconURL tp r
  simp only [ctmAfterImage]
  split
  · split
    · rename_i hok
      rw [hres, if_pos hok]
      simp [pathInv, htp]
    · rename_i hok
      exact ctmFallback_inv _ _ _ _ _ _ (by rw [hres, if_neg hok]; exact h) htp
  · exact ctmFallback_inv _ _ _ _ _ _ h htp

theorem ctmAfterAttachment_inv (env : Env) (fs : List String) (url : String)
    (md : RichLinkMetadata) (tp : String) (r : URLThumbnail) (tr : List Event)
    (h : pathInv r) (htp : tp ≠ "") :
    pathInv (ctmAfterAttachment env fs url md tp r tr).thumb := by
  have hres := downloadImageFromURL_result env fs md.imageURL tp r
  simp only [ctmAfterAttachment]
  split
  · split
    · rename_i hok
      rw [hres, if_pos hok]
      simp [pathInv, htp]
    · rename_i hok
      exact ctmAfterImage_inv _ _ _ _ _ _ _ (by rw [hres, if_neg hok]; exact h) htp
  · exact ctmAfterImage_inv _ _ _ _ _ _ _ h htp

theorem createThumbnailFromMetadata_inv (env : Env) (fs : List String)
    (cacheDir attachmentsPath url : String) (md : RichLinkMetadata)
    (atts : List MessageAttachment) :
    pathInv (createThumbnailFromMetadata env fs cacheDir attachmentsPath url md atts).thumb := by
  have htp := cachePath_ne_empty cacheDir url
  have h0 : pathInv { url := url, title := md.title, description := md.summary, success := false : URLThumbnail } := by
    rw [pathInv]
    simp
  have hres := copyAttachmentAsImage_result env fs cacheDir attachmentsPath
    (atts.getD md.imageIndex default) url
    { url := url, title := md.title, description := md.summary, success := false }
  simp only [createThumbnailFromMetadata]
  split
  · split
    · rename_i hok
      rw [hres, if_pos hok]
      simp [pathInv, htp]
    · rename_i hok
      exact ctmAfterAttachment_inv _ _ _ _ _ _ _ (by rw [hres, if_neg hok]; exact h0) htp
  · exact ctmAfterAttachment_inv _ _ _ _ _ _ _ h0 htp

theorem ProcessURL_inv (env : Env) (fs : List String) (cacheDir url : String) :
    pathInv (ProcessURL env fs cacheDir url).thumb := by
  have htp := cachePath_ne_empty cacheDir url
  have hres := generateDomainCard_result env fs url (cachePath cacheDir url)
    { url := url, success := false }
  simp only [ProcessURL]
  split
  · simp [pathInv, htp]
  · split
    · rename_i hok
      simp [pathInv, htp, hok]
    · rename_i hok
      rw [pathInv]
      simp only [Bool.not_eq_true] at hok
      simp [hres.1, hok]

/-- C1: for every URL and any combination of metadata and attachments, both
resolution entry points (`ProcessURL` and `createThumbnailFromMetadata`)
return a thumbnail (the embedded functions are total, so no panic and no null
result) whose success flag is a definite boolean and whose `thumbnailPath` is
non-empty exactly when `success = true`. -/
theorem C1_total_resolution (env : Env) (fs : List String)
    (cacheDir attachmentsPath url : String) (metadata : RichLinkMetadata)
    (attachments : List MessageAttachment) :
    ((ProcessURL env fs cacheDir url).thumb.success = true ∨
        (ProcessURL env fs cacheDir url).thumb.success = false) ∧
      ((ProcessURL env fs cacheDir url).thumb.success = true ↔
        (ProcessURL env fs cacheDir url).thumb.thumbnailPath ≠ "") ∧
      ((createThumbnailFromMetadata env fs cacheDir attachmentsPath url metadata
          attachments).thumb.success = true ∨
        (createThumbnailFromMetadata env fs cacheDir attachmentsPath url metadata
          attachments).thumb.success = false) ∧
      ((createThumbnailFromMetadata env fs cacheDir attachmentsPath url metadata
          attachments).thumb.success = true ↔
        (createThumbnailFromMetadata env fs cacheDir attachmentsPath url metadata
          attachments).thumb.thumbnailPath ≠ "") := by
  refine ⟨?_, ProcessURL_inv env fs cacheDir url, ?_,
    createThumbnailFromMetadata_inv env fs cacheDir attachmentsPath url metadata attachments⟩
  · cases (ProcessURL env fs cacheDir url).thumb.success <;> simp
  · cases (createThumbnailFromMetadata env fs cacheDir attachmentsPath url metadata
      attachments).thumb.success <;> simp

/-! ### Cache behavior of `ProcessURL` and event traces -/

theorem ProcessURL_hit (env : Env) (fs : List String) (cacheDir url : String)
    (h : cachePath cacheDir url ∈ fs) :
    ProcessURL env fs cacheDir url =
      ⟨{ url := url, title := extractDomainTitle url, thumbnailPath := cachePath cacheDir url, success := true }, fs, [Event.statCache (cachePath cacheDir url)]⟩ := by
  simp only [ProcessURL, if_pos h]

theorem ProcessURL_success_mem (env : Env) (fs : List String) (cacheDir url : String)
    (h : (ProcessURL env fs cacheDir url).thumb.success = true) :
    cachePath cacheDir url ∈ (ProcessURL env fs cacheDir url).fs := by
  by_cases hmem : cachePath cacheDir url ∈ fs
  · rw [ProcessURL_hit env fs cacheDir url hmem]
    exact hmem
  · have hfs := generateDomainCard_fs env fs url (cachePath cacheDir url)
      { url := url, success := false }
    simp only [ProcessURL, if_neg hmem] at h ⊢
    split at h
    · rename_i hok
      rw [hfs, if_pos hok]
      exact List.mem_cons_self _ _
    · rename_i hok
      simp at h
      exact absurd h hok

/-- A fully failing environment: every external command fails. The concrete
world used by the counterexamples. -/
def envAllFail : Env where
  convertOk := fun _ _ => false
  curlImageOk := fun _ => false
  cardGenOk := fun _ _ => false
  tmpWriteOk := fun _ => false
  plutilOut := fun _ => none
  plistTitle := fun _ => ""
  plistSummary := fun _ => ""
  plistSiteName := fun _ => ""
  webMeta := fun _ => {}
  ogDownloadOk := fun _ => false
  faviconCardOk := fun _ => false

/-- An environment in which only the domain-card rendering succeeds. -/
def envCardOnly : Env := { envAllFail with cardGenOk := fun _ _ => true }

/-- C2 counterexample: the metadata path does not consult the cache. With the
cache file for `https://u` already on disk, `createThumbnailFromMetadata`
still performs the metadata image download (external strategy work), and in a
failing environment it even returns `success = false` despite the existing
cache entry — refuting "for any combination of present/absent metadata,
resolution returns success immediately without invoking any strategy". -/
theorem C2_cache_counterexample :
    cachePath "cache" "https://u" ∈ [cachePath "cache" "https://u"] ∧
      Event.downloadImage "https://img.example/p.png" ∈
        (createThumbnailFromMetadata envAllFail [cachePath "cache" "https://u"] "cache" "att"
          "https://u" { hasImage := true, imageURL := "https://img.example/p.png" } []).events ∧
      (createThumbnailFromMetadata envAllFail [cachePath "cache" "https://u"] "cache" "att"
          "https://u" { hasImage := true, imageURL := "https://img.example/p.png" }
          []).thumb.success = false := by
  refine ⟨List.mem_singleton.2 rfl, ?_, ?_⟩ <;> decide

/-- C2 (amended): the cache-hit short-circuit holds for `ProcessURL`, the
metadata-free resolution path: when the cache file named by the hash of the
URL exists, `ProcessURL` returns success immediately, leaves the filesystem
unchanged, and its only event is the cache stat (no strategy work).
Consequently, calling `ProcessURL` twice in a run whose first call succeeds
performs download/convert/render work at most once: the second call is a pure
cache read. The metadata path `createThumbnailFromMetadata` does not consult
the cache (see the counterexample). -/
theorem C2_cache_amended (env : Env) (fs : List String) (cacheDir url : String) :
    (cachePath cacheDir url ∈ fs →
      (ProcessURL env fs cacheDir url).thumb.success = true ∧
        (ProcessURL env fs cacheDir url).fs = fs ∧
        (ProcessURL env fs cacheDir url).events = [Event.statCache (cachePath cacheDir url)]) ∧
      ((ProcessURL env fs cacheDir url).thumb.success = true →
        (ProcessURL env (ProcessURL env fs cacheDir url).fs cacheDir url).thumb.success = true ∧
          ∀ e ∈ (ProcessURL env (ProcessURL env fs cacheDir url).fs cacheDir url).events,
            e.isWork = false) := by
  constructor
  · intro h
    rw [ProcessURL_hit env fs cacheDir url h]
    exact ⟨rfl, rfl, rfl⟩
  · intro h
    have hmem := ProcessURL_success_mem env fs cacheDir url h
    rw [ProcessURL_hit env _ cacheDir url hmem]
    refine ⟨rfl, ?_⟩
    intro e he
    rcases List.mem_singleton.1 he with rfl
    rfl

/-- Witness for C2: a concrete cache hit, and a concrete run in which a
successful first `ProcessURL` call makes the second call a pure cache read. -/
theorem C2_cache_amended_witness :
    (ProcessURL envAllFail [cachePath "c" "https://u"] "c" "https://u").thumb.success = true ∧
      ((ProcessURL envCardOnly (ProcessURL envCardOnly [] "c" "https://u").fs "c"
            "https://u").thumb.success = true ∧
        ∀ e ∈ (ProcessURL envCardOnly (ProcessURL envCardOnly [] "c" "https://u").fs "c"
            "https://u").events, e.isWork = false) :=
  ⟨((C2_cache_amended envAllFail [cachePath "c" "https://u"] "c" "https://u").1
      (List.mem_singleton.2 rfl)).1,
    (C2_cache_amended envCardOnly [] "c" "https://u").2 (by decide)⟩

theorem ctmFallback_events_prefix (env : Env) (fs : List String) (url tp : String)
    (r : URLThumbnail) (tr : List Event) :
    ∃ rest, (ctmFallback env fs url tp r tr).events = tr ++ rest := by
  simp only [ctmFallback]
  split <;> exact ⟨_, rfl⟩

theorem ctmAfterImage_events_prefix (env : Env) (fs : List String) (url : String)
    (md : RichLinkMetadata) (tp : String) (r : URLThumbnail) (tr : List Event) :
    ∃ rest, (ctmAfterImage env fs url md tp r tr).events = tr ++ rest := by
  simp only [ctmAfterImage]
  split
  · split
    · exact ⟨_, rfl⟩
    · obtain ⟨rest, hr⟩ := ctmFallback_events_prefix env
        (downloadImageFromURL env fs md.iconURL tp r).fs url tp
        (downloadImageFromURL env fs md.iconURL tp r).result
        (tr ++ (downloadImageFromURL env fs md.iconURL tp r).events)
      exact ⟨_, by rw [hr, List.append_assoc]⟩
  · exact ctmFallback_events_prefix env fs url tp r tr

theorem ctmAfterAttachment_events_prefix (env : Env) (fs : List String) (url : String)
    (md : RichLinkMetadata) (tp : String) (r : URLThumbnail) (tr : List Event) :
    ∃ rest, (ctmAfterAttachment env fs url md tp r tr).events = tr ++ rest := by
  simp only [ctmAfterAttachment]
  split
  · split
    · exact ⟨_, rfl⟩
    · obtain ⟨rest, hr⟩ := ctmAfterImage_events_prefix env
        (downloadImageFromURL env fs md.imageURL tp r).fs url md tp
        (downloadImageFromURL env fs md.imageURL tp r).result
        (tr ++ (downloadImageFromURL env fs md.imageURL tp r).events)
      exact ⟨_, by rw [hr, List.append_assoc]⟩
  · exact ctmAfterImage_events_prefix env fs url md tp r tr

theorem ctmAfterAttachment_download_mem (env : Env) (fs : List String) (url : String)
    (md : RichLinkMetadata) (tp : String) (r : URLThumbnail) (tr : List Event)
    (h1 : md.hasImage = true) (h3 : md.imageURL ≠ "") :
    Event.downloadImage md.imageURL ∈ (ctmAfterAttachment env fs url md tp r tr).events := by
  simp only [ctmAfterAttachment]
  rw [if_pos ⟨h1, h3⟩]
  by_cases hok : (downloadImageFromURL env fs md.imageURL tp r).ok = true
  · rw [if_pos hok]
    simp [downloadImageFromURL_events]
  · rw [if_neg hok]
    obtain ⟨rest, hr⟩ := ctmAfterImage_events_prefix env
      (downloadImageFromURL env fs md.imageURL tp r).fs url md tp
      (downloadImageFromURL env fs md.imageURL tp r).result
      (tr ++ (downloadImageFromURL env fs md.imageURL tp r).events)
    rw [hr]
    simp [downloadImageFromURL_events]

/-- C3: when both an in-range attachment index and a metadata image URL are
available, the attachment copy is attempted first — it is the first recorded
strategy event of `createThumbnailFromMetadata` — a successful copy suppresses
every download, and the metadata image download is performed exactly when the
copy attempt fails. -/
theorem C3_attachment_first (env : Env) (fs : List String)
    (cacheDir attachmentsPath url : String) (md : RichLinkMetadata)
    (atts : List MessageAttachment)
    (h1 : md.hasImage = true) (h2 : md.imageIndex < atts.length) (h3 : md.imageURL ≠ "") :
    (createThumbnailFromMetadata env fs cacheDir attachmentsPath url md atts).events.head? =
        some (Event.copyAttachment (atts.getD md.imageIndex default).guid) ∧
      (copyAttachmentTry env fs (cachePath cacheDir url)
          (possiblePaths attachmentsPath (atts.getD md.imageIndex default)) = true →
        ∀ u, Event.downloadImage u ∉
          (createThumbnailFromMetadata env fs cacheDir attachmentsPath url md atts).events) ∧
      (copyAttachmentTry env fs (cachePath cacheDir url)
          (possiblePaths attachmentsPath (atts.getD md.imageIndex default)) = false →
        Event.downloadImage md.imageURL ∈
          (createThumbnailFromMetadata env fs cacheDir attachmentsPath url md atts).events) := by
  have hev := copyAttachmentAsImage_events env fs cacheDir attachmentsPath
    (atts.getD md.imageIndex default) url
    { url := url, title := md.title, description := md.summary, success := false }
  have hok' := copyAttachmentAsImage_ok env fs cacheDir attachmentsPath
    (atts.getD md.imageIndex default) url
    { url := url, title := md.title, description := md.summary, success := false }
  simp only [createThumbnailFromMetadata]
  rw [if_pos ⟨h1, h2⟩]
  by_cases hok : (copyAttachmentAsImage env fs cacheDir attachmentsPath
      (atts.getD md.imageIndex default) url
      { url := url, title := md.title, description := md.summary, success := false }).ok = true
  · rw [if_pos hok]
    refine ⟨by rw [hev]; rfl, ?_, ?_⟩
    · intro _ u
      rw [hev]
      simp
    · intro hfalse
      rw [hok', hfalse] at hok
      exact absurd hok (by simp)
  · rw [if_neg hok]
    obtain ⟨rest, hr⟩ := ctmAfterAttachment_events_prefix env
      (copyAttachmentAsImage env fs cacheDir attachmentsPath
        (atts.getD md.imageIndex default) url
        { url := url, title := md.title, description := md.summary, success := false }).fs
      url md (cachePath cacheDir url)
      (copyAttachmentAsImage env fs cacheDir attachmentsPath
        (atts.getD md.imageIndex default) url
        { url := url, title := md.title, description := md.summary, success := false }).result
      (copyAttachmentAsImage env fs cacheDir attachmentsPath
        (atts.getD md.imageIndex default) url
        { url := url, title := md.title, description := md.summary, success := false }).events
    refine ⟨?_, ?_, ?_⟩
    · rw [hr, hev]
      rfl
    · intro htrue
      rw [hok', htrue] at hok
      exact absurd rfl hok
    · intro _
      exact ctmAfterAttachment_download_mem _ _ _ _ _ _ _ h1 h3

/-- Witness for C3: a concrete attachment-plus-image-URL metadata record in a
failing environment; the copy fails and the download is attempted after it. -/
theorem C3_attachment_first_witness :
    ({ hasImage := true, imageURL := "https://img.example/p.png" } : RichLinkMetadata).hasImage
        = true ∧
      ({ hasImage := true, imageURL := "https://img.example/p.png" } :
        RichLinkMetadata).imageIndex < [({ guid := "g1" } : MessageAttachment)].length ∧
      (createThumbnailFromMetadata envAllFail [] "cache" "att" "https://u"
          { hasImage := true, imageURL := "https://img.example/p.png" }
          [{ guid := "g1" }]).events.head? = some (Event.copyAttachment "g1") ∧
      Event.downloadImage "https://img.example/p.png" ∈
        (createThumbnailFromMetadata envAllFail [] "cache" "att" "https://u"
          { hasImage := true, imageURL := "https://img.example/p.png" }
          [{ guid := "g1" }]).events :=
  ⟨rfl, by decide,
    (C3_attachment_first envAllFail [] "cache" "att" "https://u"
      { hasImage := true, imageURL := "https://img.example/p.png" }
      [{ guid := "g1" }] rfl (by decide) (by decide)).1,
    (C3_attachment_first envAllFail [] "cache" "att" "https://u"
      { hasImage := true, imageURL := "https://img.example/p.png" }
      [{ guid := "g1" }] rfl (by decide) (by decide)).2.2 (by decide)⟩

/-! ### Trace shape: the pipeline records no live-fetch and no parse events -/

/-- Recognizes a metadata-parse invocation in a trace. -/
def Event.isParse : Event → Bool
  | parsePayload _ => true
  | _ => false

/-- Pure strategy events: not a live fetch and not a metadata parse. -/
def eventTame (e : Event) : Prop := e.isLiveFetch = false ∧ e.isParse = false

theorem ctmFallback_events_tame (env : Env) (fs : List String) (url tp : String)
    (r : URLThumbnail) (tr : List Event) (h : ∀ e ∈ tr, eventTame e) :
    ∀ e ∈ (ctmFallback env fs url tp r tr).events, eventTame e := by
  have hev := generateDomainCard_events env fs url tp r
  simp only [ctmFallback]
  split <;> intro e he <;> rw [hev] at he <;>
    rcases List.mem_append.1 he with h1 | h1
  · exact h e h1
  · rcases List.mem_singleton.1 h1 with rfl
    exact ⟨rfl, rfl⟩
  · exact h e h1
  · rcases List.mem_singleton.1 h1 with rfl
    exact ⟨rfl, rfl⟩

theorem ctmAfterImage_events_tame (env : Env) (fs : List String) (url : String)
    (md : RichLinkMetadata) (tp : String) (r : URLThumbnail) (tr : List Event)
    (h : ∀ e ∈ tr, eventTame e) :
    ∀ e ∈ (ctmAfterImage env fs url md tp r tr).events, eventTame e := by
  have hev := downloadImageFromURL_events env fs md.iconURL tp r
  have htr2 : ∀ e ∈ tr ++ (downloadImageFromURL env fs md.iconURL tp r).events, eventTame e := by
    intro e he
    rcases List.mem_append.1 he with h1 | h1
    · exact h e h1
    · rw [hev] at h1
      rcases List.mem_singleton.1 h1 with rfl
      exact ⟨rfl, rfl⟩
  simp only [ctmAfterImage]
  split
  · split
    · exact htr2
    · exact ctmFallback_events_tame _ _ _ _ _ _ htr2
  · exact ctmFallback_events_tame _ _ _ _ _ _ h

theorem ctmAfterAttachment_events_tame (env : Env) (fs : List String) (url : String)
    (md : RichLinkMetadata) (tp : String) (r : URLThumbnail) (tr : List Event)
    (h : ∀ e ∈ tr, eventTame e) :
    ∀ e ∈ (ctmAfterAttachment env fs url md tp r tr).events, eventTame e := by
  have hev := downloadImageFromURL_events env fs md.imageURL tp r
  have htr2 : ∀ e ∈ tr ++ (downloadImageFromURL env fs md.imageURL tp r).events, eventTame e := by
    intro e he
    rcases List.mem_append.1 he with h1 | h1
    · exact h e h1
    · rw [hev] at h1
      rcases List.mem_singleton.1 h1 with rfl
      exact ⟨rfl, rfl⟩
  simp only [ctmAfterAttachment]
  split
  · split
    · exact htr2
    · exact ctmAfterImage_events_tame _ _ _ _ _ _ _ htr2
  · exact ctmAfterImage_events_tame _ _ _ _ _ _ _ h

theorem createThumbnailFromMetadata_events_tame (env : Env) (fs : List String)
    (cacheDir attachmentsPath url : String) (md : RichLinkMetadata)
    (atts : List MessageAttachment) :
    ∀ e ∈ (createThumbnailFromMetadata env fs cacheDir attachmentsPath url md atts).events,
      eventTame e := by
  have hev := copyAttachmentAsImage_events env fs cacheDir attachmentsPath
    (atts.getD md.imageIndex default) url
    { url := url, title := md.title, description := md.summary, success := false }
  have hcopy : ∀ e ∈ (copyAttachmentAsImage env fs cacheDir attachmentsPath
      (atts.getD md.imageIndex default) url
      { url := url, title := md.title, description := md.summary, success := false }).events,
      eventTame e := by
    intro e he
    rw [hev] at he
    rcases List.mem_singleton.1 he with rfl
    exact ⟨rfl, rfl⟩
  simp only [createThumbnailFromMetadata]
  split
  · split
    · exact hcopy
    · exact ctmAfterAttachment_events_tame _ _ _ _ _ _ _ hcopy
  · exact ctmAfterAttachment_events_tame _ _ _ _ _ _ _ (by intro e he; cases he)

theorem ProcessURL_events_tame (env : Env) (fs : List String) (cacheDir url : String) :
    ∀ e ∈ (ProcessURL env fs cacheDir url).events, eventTame e := by
  have hev := generateDomainCard_events env fs url (cachePath cacheDir url)
    { url := url, success := false }
  simp only [ProcessURL]
  split
  · intro e he
    rcases List.mem_singleton.1 he with rfl
    exact ⟨rfl, rfl⟩
  · intro e he
    rcases List.mem_cons.1 he with rfl | h1
    · exact ⟨rfl, rfl⟩
    · rw [hev] at h1
      rcases List.mem_singleton.1 h1 with rfl
      exact ⟨rfl, rfl⟩

/-- Any-membership test for live-fetch events in a trace. -/
def hasLiveFetch (l : List Event) : Bool := l.any Event.isLiveFetch

/-- C4 counterexample: with no cached entry and every strategy failing, the
trace of resolving `https://example.com/a` is exactly a cache stat followed by
the generated domain card: no live page fetch (HTML fetch, Open Graph
extraction, image/favicon download) occurs before the domain card, refuting
the claimed live-fetch step. -/
theorem C4_livefetch_counterexample :
    hasLiveFetch (ProcessURL envAllFail [] "cache" "https://example.com/a").events = false ∧
      (ProcessURL envAllFail [] "cache" "https://example.com/a").events =
        [Event.statCache (cachePath "cache" "https://example.com/a"),
          Event.genCard "https://example.com/a"] := by
  refine ⟨?_, ?_⟩ <;> decide

/-- C4 (amended): the pipeline never performs a live page fetch: no trace of
`ProcessURL` or `createThumbnailFromMetadata` contains a live-fetch event, and
on a cache miss `ProcessURL` resorts directly to the generated domain card.
`fetchOpenGraphThumbnail` is defined in the source and would record a
live-fetch event if invoked, but it has no callers. -/
theorem C4_no_livefetch_amended (env : Env) (fs : List String)
    (cacheDir attachmentsPath url : String) (md : RichLinkMetadata)
    (atts : List MessageAttachment) :
    (∀ e ∈ (ProcessURL env fs cacheDir url).events, e.isLiveFetch = false) ∧
      (∀ e ∈ (createThumbnailFromMetadata env fs cacheDir attachmentsPath url md atts).events,
        e.isLiveFetch = false) ∧
      (cachePath cacheDir url ∉ fs →
        Event.genCard url ∈ (ProcessURL env fs cacheDir url).events) ∧
      (fetchOpenGraphThumbnail env fs url (cachePath cacheDir url) default).events =
        [Event.liveFetch url] := by
  refine ⟨fun e he => (ProcessURL_events_tame env fs cacheDir url e he).1,
    fun e he => (createThumbnailFromMetadata_events_tame env fs cacheDir attachmentsPath
      url md atts e he).1, ?_, ?_⟩
  · intro hmiss
    have hev := generateDomainCard_events env fs url (cachePath cacheDir url)
      { url := url, success := false }
    simp only [ProcessURL, if_neg hmiss]
    rw [hev]
    simp
  · simp only [fetchOpenGraphThumbnail]
    split
    · rfl
    · split <;> rfl

/-- Witness for C4: the concrete cache-miss input of the counterexample. -/
theorem C4_no_livefetch_amended_witness :
    Event.genCard "https://example.com/a" ∈
      (ProcessURL envAllFail [] "cache" "https://example.com/a").events :=
  (C4_no_livefetch_amended envAllFail [] "cache" "att" "https://example.com/a" {} []).2.2.1
    (by simp)

/-- C5 counterexample: resolving `https://example.com/a` with no cached entry
and the live environment failing terminates in the generated domain card with
`success = true` but `title = "example.com"`: the domain-card path does not
capitalize the domain, refuting `title == "Example.com"`. -/
theorem C5_domain_card_counterexample :
    (ProcessURL envCardOnly [] "cache" "https://example.com/a").thumb.success = true ∧
      (ProcessURL envCardOnly [] "cache" "https://example.com/a").thumb.title = "example.com" ∧
      (ProcessURL envCardOnly [] "cache" "https://example.com/a").thumb.title ≠
        "Example.com" := by
  refine ⟨?_, ?_, ?_⟩ <;> decide

/-- C5 (amended): when resolution of `https://example.com/a` (no cached entry)
terminates in the generated domain card, the thumbnail has `success = true`
and `title = "example.com"` — the URL's domain with a leading `www.` stripped
but with no capitalization; the capitalized form `"Example.com"` is produced
by `extractDomainTitle`, which `ProcessURL` uses only on the cache-hit path. -/
theorem C5_domain_card_amended (env : Env) (fs : List String) (cacheDir : String)
    (hmiss : cachePath cacheDir "https://example.com/a" ∉ fs)
    (hcard : env.cardGenOk "https://example.com/a"
      (cachePath cacheDir "https://example.com/a") = true) :
    (ProcessURL env fs cacheDir "https://example.com/a").thumb.success = true ∧
      (ProcessURL env fs cacheDir "https://example.com/a").thumb.title = "example.com" ∧
      extractDomainTitle "https://example.com/a" = "Example.com" := by
  have hhost : parseHost "https://example.com/a" = some "example.com" := by decide
  have hstrip : stripWWW "example.com" = "example.com" := by decide
  simp only [ProcessURL, if_neg hmiss, generateDomainCard, hhost, hstrip]
  rw [if_pos hcard]
  refine ⟨?_, ?_, by decide⟩ <;> simp

/-- Witness for C5: the counterexample environment discharges both premises. -/
theorem C5_domain_card_amended_witness :
    (ProcessURL envCardOnly [] "cache" "https://example.com/a").thumb.success = true ∧
      (ProcessURL envCardOnly [] "cache" "https://example.com/a").thumb.title = "example.com" ∧
      extractDomainTitle "https://example.com/a" = "Example.com" :=
  C5_domain_card_amended envCardOnly [] "cache" (by simp) rfl

/-! ### Classification of collected metadata URLs -/

theorem isPreviewImageURL_of_cdn (u : String)
    (h : containsStr u "cdn-link-previews" = true) : isPreviewImageURL u = true := by
  simp [isPreviewImageURL, h]

theorem isPreviewImageURL_favicon (v : String) (h1 : containsStr v "favicon" = true)
    (h2 : containsStr v "cdn-link-previews" = false) : isPreviewImageURL v = false := by
  simp [isPreviewImageURL, h1, h2]

theorem isIconURL_of_favicon (v : String) (h : containsStr v "favicon" = true) :
    isIconURL v = true := by
  simp [isIconURL, h]

theorem categorize_pair (u v : String) (hu : containsStr u "cdn-link-previews" = true)
    (hv : containsStr v "favicon" = true) (hv2 : containsStr v "cdn-link-previews" = false) :
    categorizeURLs [u, v] = ([u], [v]) ∧ categorizeURLs [v, u] = ([u], [v]) := by
  have h1 := isPreviewImageURL_of_cdn u hu
  have h2 := isPreviewImageURL_favicon v hv hv2
  have h3 := isIconURL_of_favicon v hv
  constructor <;> simp [categorizeURLs, h1, h2, h3]

/-- C9: when the URLs collected from the converted metadata blob are one URL
containing `cdn-link-previews` and one containing `favicon` (in either order),
the parser stores the former as the preview image URL with `hasImage = true`
and the latter as the icon URL with `hasIcon = true`. -/
theorem C9_classification (env : Env) (payload origURL plistOut u v : String)
    (hw : env.tmpWriteOk payload = true)
    (hp : env.plutilOut payload = some plistOut)
    (hurls : extractAllURLs plistOut = [u, v] ∨ extractAllURLs plistOut = [v, u])
    (hu : containsStr u "cdn-link-previews" = true)
    (hv : containsStr v "favicon" = true)
    (hv2 : containsStr v "cdn-link-previews" = false) :
    ∃ md, extractRichLinkMetadata env payload origURL = .ok md ∧
      md.imageURL = u ∧ md.hasImage = true ∧ md.iconURL = v ∧ md.hasIcon = true := by
  obtain ⟨hc1, hc2⟩ := categorize_pair u v hu hv hv2
  have hcat : categorizeURLs (extractAllURLs plistOut) = ([u], [v]) := by
    rcases hurls with h | h <;> rw [h]
    · exact hc1
    · exact hc2
  simp only [extractRichLinkMetadata, hw, Bool.not_true, Bool.false_eq_true, if_false, hp, hcat]
  rcases hscan : scanKeyDigits substituteIndexKey.data plistOut.data with _ | idx <;>
    exact ⟨_, rfl, by simp, by simp, by simp, by simp⟩

/-- The plist text of the C9 witness: two quoted https URLs. -/
def c9Plist : String :=
  "\x22https://cdn-link-previews.example/x\x22 \x22https://site/favicon.ico\x22"

/-- An environment whose metadata blob converts to `c9Plist`. -/
def envC9 : Env :=
  { envAllFail with tmpWriteOk := fun _ => true, plutilOut := fun _ => some c9Plist }

/-- Witness for C9: the concrete blob carrying a preview CDN URL and a favicon
URL. -/
theorem C9_classification_witness :
    ∃ md, extractRichLinkMetadata envC9 "payload" "https://orig" = .ok md ∧
      md.imageURL = "https://cdn-link-previews.example/x" ∧ md.hasImage = true ∧
      md.iconURL = "https://site/favicon.ico" ∧ md.hasIcon = true :=
  C9_classification envC9 "payload" "https://orig" c9Plist
    "https://cdn-link-previews.example/x" "https://site/favicon.ico"
    rfl rfl (Or.inl (by decide)) (by decide) (by decide) (by decide)

/-! ### Per-message preview extraction -/

/-- C10: per message, `ProcessMessageForURLPreviews` returns at most one
thumbnail entry; any entry is keyed by the first URL found in the message
text; the original URL handed to the metadata parser is that same first URL;
and a message row with empty `payload_data` yields an empty map even when the
text contains URLs. -/
theorem C10_single_preview (env : Env) (fs : List String)
    (db : Int → Option (String × String)) (getAtts : Int → Option (List MessageAttachment))
    (cacheDir attachmentsPath : String) (mid : Int) :
    (ProcessMessageForURLPreviews env fs db getAtts cacheDir attachmentsPath mid).results.length
        ≤ 1 ∧
      (∀ text, db mid = some (text, "") →
        (ProcessMessageForURLPreviews env fs db getAtts cacheDir attachmentsPath mid).results
          = []) ∧
      (∀ text payload u thumb, db mid = some (text, payload) →
        (u, thumb) ∈ (ProcessMessageForURLPreviews env fs db getAtts cacheDir
          attachmentsPath mid).results → u = (FindURLsInText text).headD "") ∧
      (∀ orig, Event.parsePayload orig ∈
          (ProcessMessageForURLPreviews env fs db getAtts cacheDir attachmentsPath mid).events →
        ∃ text payload, db mid = some (text, payload) ∧
          orig = (FindURLsInText text).headD "") := by
  rcases hdb : db mid with _ | ⟨text, payload⟩
  · simp only [ProcessMessageForURLPreviews, hdb]
    refine ⟨by simp, ?_, ?_, ?_⟩
    · intro text h
      trivial
    · intro text payload u thumb _ hmem
      cases hmem
    · intro orig hmem
      cases hmem
  · simp only [ProcessMessageForURLPreviews, hdb]
    by_cases hpay : payload = ""
    · rw [if_pos hpay]
      refine ⟨by simp, fun _ _ => by trivial, ?_, ?_⟩
      · intro _ _ u thumb _ hmem
        cases hmem
      · intro orig hmem
        cases hmem
    · rw [if_neg hpay]
      by_cases hurl : (FindURLsInText text).isEmpty
      · rw [if_pos hurl]
        refine ⟨by simp, fun _ _ => by trivial, ?_, ?_⟩
        · intro _ _ u thumb _ hmem
          cases hmem
        · intro orig hmem
          cases hmem
      · rw [if_neg hurl]
        rcases hx : extractRichLinkMetadata env payload ((FindURLsInText text).headD "")
          with e | md <;> dsimp only
        · refine ⟨by simp, fun _ _ => by trivial, ?_, ?_⟩
          · intro _ _ u thumb _ hmem
            cases hmem
          · intro orig hmem
            rcases List.mem_singleton.1 hmem with h
            exact ⟨text, payload, rfl, Event.parsePayload.inj h⟩
        · rcases hga : getAtts mid with _ | atts <;> dsimp only
          · refine ⟨by simp, fun _ _ => by trivial, ?_, ?_⟩
            · intro _ _ u thumb _ hmem
              cases hmem
            · intro orig hmem
              rcases List.mem_singleton.1 hmem with h
              exact ⟨text, payload, rfl, Event.parsePayload.inj h⟩
          · refine ⟨by simp, ?_, ?_, ?_⟩
            · intro text2 h2
              have hinj := Option.some.inj h2
              exact absurd (congrArg Prod.snd hinj) hpay
            · intro text2 payload2 u thumb h2 hmem
              have htext : text = text2 := congrArg Prod.fst (Option.some.inj h2)
              rcases List.mem_singleton.1 hmem with h
              rw [← htext]
              exact congrArg Prod.fst h
            · intro orig hmem
              rcases List.mem_cons.1 hmem with h | h
              · exact ⟨text, payload, rfl, Event.parsePayload.inj h⟩
              · have := (createThumbnailFromMetadata_events_tame env fs cacheDir
                  attachmentsPath ((FindURLsInText text).headD "") md atts _ h).2
                simp [Event.isParse] at this

/-- Witness for C10: a concrete message row with URLs in the text but an empty
payload yields no preview entries. -/
theorem C10_single_preview_witness :
    (ProcessMessageForURLPreviews envAllFail [] (fun _ => some ("see http://a", ""))
        (fun _ => some []) "cache" "att" 1).results = [] :=
  (C10_single_preview envAllFail [] (fun _ => some ("see http://a", "")) (fun _ => some [])
    "cache" "att" 1).2.1 "see http://a" rfl

/-- C7 counterexample: the claim's delimiter list (whitespace, angle/curly/square
brackets, quotes, backtick, pipe, caret) omits the backslash, which the source
regex also excludes from a URL body. On the text `http://a\b` the source
extractor stops the match at the backslash while an extractor built from the
claim's listed delimiter set keeps it, so the two disagree. -/
theorem C7_findurls_counterexample :
    FindURLsInText "http://a\\b" = ["http://a"] ∧
      specFindURLsListed "http://a\\b" = ["http://a\\b"] ∧
      FindURLsInText "http://a\\b" ≠ specFindURLsListed "http://a\\b" := by
  exact ⟨by decide, by decide, by decide⟩

/-- C7 (amended): `FindURLsInText` matches `http(s)://` tokens up to but
excluding the delimiter characters (whitespace, angle/curly/square brackets,
quotes, backtick, pipe, caret, and additionally the backslash), trims the
trailing punctuation characters `. , ; ! ? )` from each match, returns the
results deduplicated while preserving first-seen order (no duplicates, and the
output is an order-preserving sublist of the trimmed matches containing exactly
their elements), and returns an empty result for empty text. It is a pure
function, hence deterministic on equal inputs, and never errors. -/
theorem C7_findurls_amended (text : String) :
    FindURLsInText text = specFindURLsAmended text ∧
      (FindURLsInText text).Nodup ∧
      List.Sublist (FindURLsInText text) ((rawMatchesWith isURLDelim text).map trimRightPunct) ∧
      (∀ u, u ∈ FindURLsInText text ↔ u ∈ (rawMatchesWith isURLDelim text).map trimRightPunct) ∧
      FindURLsInText "" = [] := by
  refine ⟨?_, ?_, ?_, ?_, rfl⟩
  · unfold FindURLsInText specFindURLsAmended
    rw [specTrim_eq_trimRightPunct, isURLDelim_eq_specAmendedDelim, specDedup_eq_dedupAux]
  · unfold FindURLsInText
    split
    · simp
    · exact dedupAux_nodup _ _
  · unfold FindURLsInText
    split
    · exact List.nil_sublist _
    · exact dedupAux_sublist _ _
  · intro u
    unfold FindURLsInText
    split
    · rename_i h
      subst h
      exact Iff.rfl
    · rw [mem_dedupAux]
      simp

/-! ### The generator loop covers every URL (C6) -/

/-- The `processedURLs` set and the keys of `urlThumbnails` grow in lockstep. -/
def stateInv (st : RunState) : Prop := st.processed = st.thumbs.map Prod.fst

theorem addPreviews_inv (prs : List (String × URLThumbnail)) (st : RunState)
    (h : stateInv st) : stateInv (addPreviews st prs) := by
  induction prs generalizing st with
  | nil => exact h
  | cons p rest ih =>
    obtain ⟨u, t⟩ := p
    simp only [addPreviews]
    split
    · exact ih st h
    · refine ih _ ?_
      simp only [stateInv, List.map_append]
      rw [stateInv] at h
      simp [h]

theorem addPreviews_mono (prs : List (String × URLThumbnail)) (st : RunState) :
    ∀ u ∈ st.processed, u ∈ (addPreviews st prs).processed := by
  induction prs generalizing st with
  | nil => intro u hu; exact hu
  | cons p rest ih =>
    obtain ⟨v, t⟩ := p
    intro u hu
    simp only [addPreviews]
    split
    · exact ih st u hu
    · exact ih _ u (by simp [hu])

theorem fallbackLoop_inv (env : Env) (cacheDir : String) (urls : List String) (st : RunState)
    (h : stateInv st) : stateInv (fallbackLoop env cacheDir st urls) := by
  induction urls generalizing st with
  | nil => exact h
  | cons v rest ih =>
    simp only [fallbackLoop]
    split
    · exact ih st h
    · refine ih _ ?_
      simp only [stateInv, List.map_append]
      rw [stateInv] at h
      simp [h]

theorem fallbackLoop_mono (env : Env) (cacheDir : String) (urls : List String) (st : RunState) :
    ∀ u ∈ st.processed, u ∈ (fallbackLoop env cacheDir st urls).processed := by
  induction urls generalizing st with
  | nil => intro u hu; exact hu
  | cons v rest ih =>
    intro u hu
    simp only [fallbackLoop]
    split
    · exact ih st u hu
    · exact ih _ u (by simp [hu])

theorem fallbackLoop_covers (env : Env) (cacheDir : String) (urls : List String) (st : RunState) :
    ∀ u ∈ urls, u ∈ (fallbackLoop env cacheDir st urls).processed := by
  induction urls generalizing st with
  | nil => intro u hu; cases hu
  | cons v rest ih =>
    intro u hu
    simp only [fallbackLoop]
    rcases List.mem_cons.1 hu with rfl | hu
    · split
      · rename_i hv
        exact fallbackLoop_mono env cacheDir rest st u hv
      · exact fallbackLoop_mono env cacheDir rest _ u (by simp)
    · split
      · exact ih st u hu
      · exact ih _ u hu

theorem processMessage_inv (env : Env) (db : Int → Option (String × String))
    (getAtts : Int → Option (List MessageAttachment)) (cacheDir attachmentsPath : String)
    (st : RunState) (msg : Message) (h : stateInv st) :
    stateInv (processMessage env db getAtts cacheDir attachmentsPath st msg) := by
  rcases htext : msg.text with _ | t <;> simp only [processMessage, htext]
  · exact h
  · split
    · exact h
    · exact fallbackLoop_inv _ _ _ _ (addPreviews_inv _ _ h)

theorem processMessage_mono (env : Env) (db : Int → Option (String × String))
    (getAtts : Int → Option (List MessageAttachment)) (cacheDir attachmentsPath : String)
    (st : RunState) (msg : Message) :
    ∀ u ∈ st.processed,
      u ∈ (processMessage env db getAtts cacheDir attachmentsPath st msg).processed := by
  intro u hu
  rcases htext : msg.text with _ | t <;> simp only [processMessage, htext]
  · exact hu
  · split
    · exact hu
    · exact fallbackLoop_mono _ _ _ _ u (addPreviews_mono _ _ u hu)

theorem processMessage_covers (env : Env) (db : Int → Option (String × String))
    (getAtts : Int → Option (List MessageAttachment)) (cacheDir attachmentsPath : String)
    (st : RunState) (msg : Message) (t : String) (htext : msg.text = some t) :
    ∀ u ∈ FindURLsInText t,
      u ∈ (processMessage env db getAtts cacheDir attachmentsPath st msg).processed := by
  intro u hu
  simp only [processMessage, htext]
  split
  · rename_i hempty
    rw [List.isEmpty_iff] at hempty
    rw [hempty] at hu
    cases hu
  · exact fallbackLoop_covers _ _ _ _ u hu

theorem foldl_processMessage_spec (env : Env) (db : Int → Option (String × String))
    (getAtts : Int → Option (List MessageAttachment)) (cacheDir attachmentsPath : String)
    (messages : List Message) :
    ∀ st : RunState, stateInv st →
      stateInv (messages.foldl (processMessage env db getAtts cacheDir attachmentsPath) st) ∧
        (∀ u ∈ st.processed,
          u ∈ (messages.foldl (processMessage env db getAtts cacheDir attachmentsPath)
            st).processed) ∧
        (∀ msg ∈ messages, ∀ t, msg.text = some t → ∀ u ∈ FindURLsInText t,
          u ∈ (messages.foldl (processMessage env db getAtts cacheDir attachmentsPath)
            st).processed) := by
  induction messages with
  | nil =>
    intro st h
    exact ⟨h, fun u hu => hu, fun msg hm => absurd hm (List.not_mem_nil _)⟩
  | cons m rest ih =>
    intro st h
    simp only [List.foldl_cons]
    obtain ⟨ih1, ih2, ih3⟩ := ih (processMessage env db getAtts cacheDir attachmentsPath st m)
      (processMessage_inv _ _ _ _ _ _ _ h)
    refine ⟨ih1, ?_, ?_⟩
    · intro u hu
      exact ih2 u (processMessage_mono _ _ _ _ _ _ _ u hu)
    · intro msg hm t htext u hu
      rcases List.mem_cons.1 hm with rfl | hm
      · exact ih2 u (processMessage_covers _ _ _ _ _ _ _ _ htext u hu)
      · exact ih3 msg hm t htext u hu

/-- C6: a temp-file write failure or a failed plist conversion makes the
metadata parser return an error; and the generator loop treats an absent
metadata result as "no preview", so every URL found in any message text still
receives a thumbnail entry (through the metadata-free `ProcessURL` fallback
when needed) — the run is never aborted. -/
theorem C6_metadata_error_fallback (env : Env) (db : Int → Option (String × String))
    (getAtts : Int → Option (List MessageAttachment)) (cacheDir attachmentsPath : String)
    (fs0 : List String) (messages : List Message) :
    (∀ payload origURL, env.tmpWriteOk payload = false ∨ env.plutilOut payload = none →
      ∃ e, extractRichLinkMetadata env payload origURL = Except.error e) ∧
      (∀ msg ∈ messages, ∀ t, msg.text = some t → ∀ u ∈ FindURLsInText t,
        ∃ thumb, (u, thumb) ∈
          (processAllURLs env db getAtts cacheDir attachmentsPath fs0 messages).thumbs) := by
  constructor
  · intro payload origURL h
    rcases h with h | h
    · exact ⟨"temp file write failed", by simp [extractRichLinkMetadata, h]⟩
    · by_cases hw : env.tmpWriteOk payload = true
      · exact ⟨"plutil conversion failed", by simp [extractRichLinkMetadata, hw, h]⟩
      · simp only [Bool.not_eq_true] at hw
        exact ⟨"temp file write failed", by simp [extractRichLinkMetadata, hw]⟩
  · intro msg hm t htext u hu
    obtain ⟨hinv, _, hcov⟩ := foldl_processMessage_spec env db getAtts cacheDir
      attachmentsPath messages ⟨[], [], fs0, []⟩ rfl
    have hp := hcov msg hm t htext u hu
    rw [stateInv] at hinv
    rw [show (processAllURLs env db getAtts cacheDir attachmentsPath fs0 messages) =
      messages.foldl (processMessage env db getAtts cacheDir attachmentsPath)
        ⟨[], [], fs0, []⟩ from rfl]
    rw [hinv] at hp
    obtain ⟨x, hx, hfx⟩ := List.mem_map.1 hp
    refine ⟨x.2, ?_⟩
    have : (u, x.2) = x := by
      rw [← hfx]
    rw [this]
    exact hx

/-- Witness for C6: a failing-environment run on one message whose text holds
one URL; the parser errors and the URL still gets a thumbnail entry. -/
theorem C6_metadata_error_fallback_witness :
    (∃ e, extractRichLinkMetadata envAllFail "blob" "http://a" = Except.error e) ∧
      ∃ thumb, ("http://a", thumb) ∈
        (processAllURLs envAllFail (fun _ => some ("see http://a", "blob")) (fun _ => some [])
          "cache" "att" [] [{ id := 1, text := some "see http://a" }]).thumbs :=
  ⟨(C6_metadata_error_fallback envAllFail (fun _ => some ("see http://a", "blob"))
      (fun _ => some []) "cache" "att" [] [{ id := 1, text := some "see http://a" }]).1
      "blob" "http://a" (Or.inl rfl),
    (C6_metadata_error_fallback envAllFail (fun _ => some ("see http://a", "blob"))
      (fun _ => some []) "cache" "att" [] [{ id := 1, text := some "see http://a" }]).2
      { id := 1, text := some "see http://a" } (List.mem_singleton.2 rfl)
      "see http://a" rfl "http://a" (by decide)⟩

/-! ### Text substitution (C8) -/

/-- The concrete thumbnail map of the C8 counterexample: only `http://a` has a
successful entry. -/
def c8Map : String → Option URLThumbnail :=
  fun u =>
    if u = "http://a" then some { success := true, thumbnailPath := "cache/t.png" } else none

/-- C8 counterexample: a URL with no entry in the map is not left byte-for-byte
unchanged. In `"http://a http://ab"` only `http://a` has a successful entry,
but the global substring replacement also rewrites the prefix of `http://ab`,
so the no-entry URL `http://ab` no longer occurs anywhere in the output. -/
theorem C8_substitution_counterexample :
    c8Map "http://ab" = none ∧
      containsStr (ReplaceURLsWithImages "http://a http://ab" c8Map) "http://ab" = false ∧
      ReplaceURLsWithImages "http://a http://ab" c8Map =
        "\\messageimage\x7bAttachments/url-thumbnails/t.png\x7d \\messageimage\x7bAttachments/url-thumbnails/t.png\x7db" := by
  refine ⟨rfl, ?_, ?_⟩ <;> decide

theorem replaceStep_id (thumbnails : String → Option URLThumbnail) (start u : String)
    (h : ∀ th, thumbnails u = some th → th.success = false) :
    replaceStep thumbnails start u = start := by
  unfold replaceStep
  rcases hth : thumbnails u with _ | th
  · rfl
  · have hs := h th hth
    simp [hs]

theorem replaceFold_id (thumbnails : String → Option URLThumbnail) (l : List String)
    (h : ∀ u ∈ l, ∀ th, thumbnails u = some th → th.success = false) :
    ∀ start : String, l.foldl (replaceStep thumbnails) start = start := by
  induction l with
  | nil => intro start; rfl
  | cons v rest ih =>
    intro start
    simp only [List.foldl_cons]
    rw [replaceStep_id thumbnails start v (h v (List.mem_cons_self _ _))]
    exact ih (fun u hu => h u (List.mem_cons_of_mem _ hu)) start

/-- C8 (amended): substitution rewrites the working text only for URLs whose
entry has `success = true` (for any other URL the loop step is the identity on
the text), and when no URL found in the text has a successful entry the text
is returned byte-for-byte unchanged. Because the rewrite is a global substring
replacement, a URL with no entry or with `success = false` can nevertheless be
altered when a successful URL occurs inside it as a substring (see the
counterexample). -/
theorem C8_substitution_amended (text : String) (thumbnails : String → Option URLThumbnail) :
    (∀ start u, (∀ th, thumbnails u = some th → th.success = false) →
      replaceStep thumbnails start u = start) ∧
      ((∀ u ∈ FindURLsInText text, ∀ th, thumbnails u = some th → th.success = false) →
        ReplaceURLsWithImages text thumbnails = text) := by
  refine ⟨fun start u h => replaceStep_id thumbnails start u h, ?_⟩
  intro h
  unfold ReplaceURLsWithImages
  split
  · rfl
  · exact replaceFold_id thumbnails (FindURLsInText text) h text

/-- Witness for C8: with no successful entries the text is unchanged. -/
theorem C8_substitution_amended_witness :
    ReplaceURLsWithImages "see http://x" (fun _ => none) = "see http://x" :=
  (C8_substitution_amended "see http://x" (fun _ => none)).2
    (fun u _ th hth => by simp at hth)

end Threadbound
